import Mathlib

/-!
Verification of the DiscordIssueBridge core (Tools/DiscordIssueBridge) against
its natural-language specification.

The Python sources are shallowly embedded: machine-level concerns are
abstracted as follows.

* `datetime` values carry only their ordering and identity here, so they are
  modelled as `Nat` (UTC instants); `isoformat` becomes an injective rendering
  `isoUtc`.
* Python `str` is modelled as Lean `String` (a list of unicode scalars), with
  `str.strip` / `str.lower` / `str.replace(" ", "-")` modelled character-wise
  (`pyStrip`, `pyLower`, `spaceToHyphen`); `str.lower` uses the ASCII case map,
  which agrees with Python on every string appearing in the claims.
* Python dicts keyed by strings are association lists; insertion overwrites in
  place (keeping position) or appends, exactly like CPython dicts.
* The network is a parameter: the live `fetch_threads` path is modelled from
  the point where the paginated payloads have been collected (the per-thread
  loop of `DiscordClient.fetch_threads`), and `DiscordClient._execute` is
  modelled over a script assigning an outcome to each HTTP attempt.
-/

/-! ### Python string primitives -/

/-- The opening curly brace character. -/
def lbrace : Char := Char.ofNat 123

/-- The closing curly brace character. -/
def rbrace : Char := Char.ofNat 125

/-- Whitespace as recognised by Python's `str.strip()` and `\s` for the ASCII
range: space, tab, newline, carriage return, vertical tab, form feed. -/
def pyIsSpace (c : Char) : Bool :=
  c.toNat = 32 || c.toNat = 9 || c.toNat = 10 || c.toNat = 13 ||
    c.toNat = 11 || c.toNat = 12

/-- `str.strip()` on the underlying character list: drop whitespace from both
ends. -/
def pyStripChars (l : List Char) : List Char :=
  ((l.dropWhile pyIsSpace).reverse.dropWhile pyIsSpace).reverse

/-- Python's `str.strip()` (no arguments). -/
def pyStrip (s : String) : String := String.mk (pyStripChars s.data)

/-- Python's `str.lower()` (ASCII case map). -/
def pyLower (s : String) : String := String.mk (s.data.map Char.toLower)

/-- Python's `str.replace(" ", "-")`: single-character replacement is a map. -/
def spaceToHyphen (s : String) : String :=
  String.mk (s.data.map (fun c => if c = ' ' then '-' else c))

/-! ### Template engine (`template_engine.py`)

`render` substitutes every `\x7b\x7bidentifier\x7d\x7d` placeholder by a single
left-to-right pass of `re.sub` with pattern
`\x7b\x7b\s*([a-zA-Z0-9_]+)\s*\x7d\x7d`; an identifier absent from the context
raises `KeyError` (modelled as `Except.error key`). -/

/-- The identifier class `[a-zA-Z0-9_]` of the placeholder pattern. -/
def isIdentChar (c : Char) : Bool :=
  ('a' ≤ c && c ≤ 'z') || ('A' ≤ c && c ≤ 'Z') || ('0' ≤ c && c ≤ '9') || c = '_'

/-- Dictionary lookup for the render context (`context[key]` / `key in context`). -/
def ctxLookup (ctx : List (String × String)) (key : String) : Option String :=
  (ctx.find? (fun p => p.1 == key)).map (fun p => p.2)

/-- Try to match the placeholder regex at the start of `l`; on success return
the captured identifier and the characters following the match.  The three
character classes of the pattern are pairwise disjoint, so the greedy regex
match is this deterministic scan. -/
def matchPlaceholder : List Char → Option (String × List Char)
  | c1 :: c2 :: rest =>
    if c1 = lbrace ∧ c2 = lbrace then
      let r1 := rest.dropWhile pyIsSpace
      let ident := r1.takeWhile isIdentChar
      let r2 := (r1.dropWhile isIdentChar).dropWhile pyIsSpace
      match r2 with
      | d1 :: d2 :: tail =>
        if ident ≠ [] ∧ d1 = rbrace ∧ d2 = rbrace then some (String.mk ident, tail)
        else none
      | _ => none
    else none
  | _ => none

/-- The left-to-right substitution pass of `re.sub`.  `fuel` bounds the
recursion; every step consumes at least one character, so `fuel = l.length`
always suffices and the `0` equation is never reached from `render`. -/
def renderChars (ctx : List (String × String)) : Nat → List Char → Except String (List Char)
  | _, [] => .ok []
  | 0, rest => .ok rest
  | fuel + 1, c :: cs =>
    match matchPlaceholder (c :: cs) with
    | some (key, tail) =>
      match ctxLookup ctx key with
      | some v =>
        match renderChars ctx fuel tail with
        | .ok r => .ok (v.data ++ r)
        | .error e => .error e
      | none => .error key
    | none =>
      match renderChars ctx fuel cs with
      | .ok r => .ok (c :: r)
      | .error e => .error e

/-- `template_engine.render`; `Except.error key` models the `KeyError`. -/
def render (template : String) (ctx : List (String × String)) : Except String String :=
  match renderChars ctx template.data.length template.data with
  | .ok r => .ok (String.mk r)
  | .error e => .error e

/-- The identifiers of the placeholders found by the same scan that `render`
performs, in order. -/
def placeholdersChars : Nat → List Char → List String
  | _, [] => []
  | 0, _ => []
  | fuel + 1, c :: cs =>
    match matchPlaceholder (c :: cs) with
    | some (key, tail) => key :: placeholdersChars fuel tail
    | none => placeholdersChars fuel cs

/-- Placeholder identifiers of a template, in scan order. -/
def templatePlaceholders (t : String) : List String :=
  placeholdersChars t.data.length t.data

/-! #### Render lemmas -/

theorem length_dropWhile_le (p : Char → Bool) (l : List Char) :
    (l.dropWhile p).length ≤ l.length := by
  induction l with
  | nil => simp
  | cons a l ih =>
    rw [List.dropWhile_cons]
    split
    · exact Nat.le_succ_of_le ih
    · simp

theorem matchPlaceholder_consumes {l tail : List Char} {key : String}
    (h : matchPlaceholder l = some (key, tail)) : tail.length < l.length := by
  match l with
  | [] => simp [matchPlaceholder] at h
  | [c] => simp [matchPlaceholder] at h
  | c1 :: c2 :: rest =>
    rw [matchPlaceholder] at h
    split at h
    · rename_i hbr
      dsimp only at h
      split at h
      · rename_i d1 d2 tl heq
        split at h
        · rename_i hcond
          have htl : tail = tl := by
            cases h; rfl
          subst htl
          have h1 : (d1 :: d2 :: tail).length ≤ rest.length := by
            rw [← heq]
            calc (((rest.dropWhile pyIsSpace).dropWhile isIdentChar).dropWhile pyIsSpace).length
                ≤ ((rest.dropWhile pyIsSpace).dropWhile isIdentChar).length :=
                  length_dropWhile_le _ _
              _ ≤ (rest.dropWhile pyIsSpace).length := length_dropWhile_le _ _
              _ ≤ rest.length := length_dropWhile_le _ _
          simp only [List.length_cons] at h1 ⊢
          omega
        · exact absurd h (by simp)
      · exact absurd h (by simp)
    · exact absurd h (by simp)

theorem renderChars_ok_iff (ctx : List (String × String)) :
    ∀ fuel l, l.length ≤ fuel →
      ((∃ r, renderChars ctx fuel l = .ok r) ↔
        ∀ k ∈ placeholdersChars fuel l, (ctxLookup ctx k).isSome = true) := by
  intro fuel
  induction fuel with
  | zero =>
    intro l hl
    have : l = [] := List.length_eq_zero.mp (Nat.le_zero.mp hl)
    subst this
    simp [renderChars, placeholdersChars]
  | succ f ih =>
    intro l hl
    match l with
    | [] => simp [renderChars, placeholdersChars]
    | c :: cs =>
      rw [renderChars, placeholdersChars]
      cases hm : matchPlaceholder (c :: cs) with
      | some kt =>
        obtain ⟨key, tail⟩ := kt
        have htail : tail.length ≤ f := by
          have := matchPlaceholder_consumes hm
          simp only [List.length_cons] at this hl
          omega
        cases hk : ctxLookup ctx key with
        | some v =>
          simp only [hk]
          constructor
          · intro ⟨r, hr⟩ k hkmem
            simp only [List.mem_cons] at hkmem
            rcases hkmem with rfl | hkmem
            · simp [hk]
            · cases hrec : renderChars ctx f tail with
              | ok rr => exact ((ih tail htail).mp ⟨rr, hrec⟩) k hkmem
              | error e => rw [hrec] at hr; exact absurd hr (by simp)
          · intro hall
            have := (ih tail htail).mpr (fun k hk2 => hall k (List.mem_cons_of_mem _ hk2))
            obtain ⟨r, hr⟩ := this
            exact ⟨v.data ++ r, by rw [hr]⟩
        | none =>
          simp only [hk]
          constructor
          · intro ⟨r, hr⟩
            exact absurd hr (by simp)
          · intro hall
            have := hall key (List.mem_cons_self _ _)
            rw [hk] at this
            simp at this
      | none =>
        have hcs : cs.length ≤ f := by
          simp only [List.length_cons] at hl
          omega
        constructor
        · intro ⟨r, hr⟩ k hkmem
          cases hrec : renderChars ctx f cs with
          | ok rr => exact ((ih cs hcs).mp ⟨rr, hrec⟩) k hkmem
          | error e => rw [hrec] at hr; exact absurd hr (by simp)
        · intro hall
          obtain ⟨r, hr⟩ := (ih cs hcs).mpr hall
          exact ⟨c :: r, by rw [hr]⟩

theorem render_ok_iff (t : String) (ctx : List (String × String)) :
    (∃ s, render t ctx = .ok s) ↔
      ∀ k ∈ templatePlaceholders t, (ctxLookup ctx k).isSome = true := by
  rw [render, templatePlaceholders]
  constructor
  · intro ⟨s, hs⟩
    apply (renderChars_ok_iff ctx t.data.length t.data (Nat.le_refl _)).mp
    cases hrec : renderChars ctx t.data.length t.data with
    | ok r => exact ⟨r, rfl⟩
    | error e => rw [hrec] at hs; exact absurd hs (by simp)
  · intro hall
    obtain ⟨r, hr⟩ := (renderChars_ok_iff ctx t.data.length t.data (Nat.le_refl _)).mpr hall
    exact ⟨String.mk r, by rw [hr]⟩

/-- Claim C7: `render(template, context)` performs a single left-to-right pass
replacing every placeholder whose identifier consists of
alphanumerics/underscore by the corresponding context value; it succeeds
exactly when every placeholder identifier has a context entry, and raises a
missing-key error otherwise.  In particular rendering "Hello" followed by a
`name` placeholder against a context mapping `name` to `"Epika"` yields
`"Hello Epika"`, and rendering it against an empty context fails with the
missing key `name`. -/
theorem render_missing_key_contract :
    (∀ t ctx, (∃ s, render t ctx = .ok s) ↔
        ∀ k ∈ templatePlaceholders t, (ctxLookup ctx k).isSome = true) ∧
    render "Hello \x7b\x7bname\x7d\x7d" [("name", "Epika")] = .ok "Hello Epika" ∧
    render "Hello \x7b\x7bname\x7d\x7d" [] = .error "name" :=
  ⟨render_ok_iff, rfl, rfl⟩

/-- Witness for C7: the general contract applied to a concrete template and
context. -/
theorem render_missing_key_contract_witness :
    ∃ s, render "Hi \x7b\x7bx\x7d\x7d" [("x", "y")] = .ok s :=
  (render_missing_key_contract.1 "Hi \x7b\x7bx\x7d\x7d" [("x", "y")]).mpr (by decide)

/-! ### Data model (`discord_client.py` dataclasses, `bridge_config.py`,
`state_store.py`) -/

/-- `DiscordAttachment`. -/
structure DiscordAttachment where
  id : String
  url : String
  filename : String
deriving DecidableEq

/-- `DiscordMessage`; `timestamp` is the parsed UTC instant. -/
structure DiscordMessage where
  id : String
  authorId : String
  authorName : String
  content : String
  timestamp : Nat
  attachments : List DiscordAttachment
deriving DecidableEq

/-- `DiscordThread`; `createdAt` is the (possibly adjusted) UTC instant. -/
structure DiscordThread where
  id : String
  guildId : Option String
  channelId : String
  name : String
  ownerId : String
  createdAt : Nat
  appliedTagIds : List String
  firstMessage : DiscordMessage
deriving DecidableEq

/-- The fields of `BridgeConfig` that the orchestrator reads (the file/loader
fields are collaborator concerns outside the core). -/
structure BridgeConfig where
  issueTitlePre : String
  issueBodyTemplate : String
  defaultLabels : List String
  tagLabelMap : List (String × List String)
  fallbackLabelPre : String
  assignees : List String
  maxThreadsPerRun : Nat
deriving DecidableEq

/-- In-memory `StateStore`: the processed map (thread id to the recorded
processed-at instant) and the `last_synced_at` scalar. -/
structure StateStore where
  processed : List (String × Nat)
  lastSyncedAt : Option Nat
deriving DecidableEq

/-- `StateStore.has_processed`: dict membership test. -/
def hasProcessed (s : StateStore) (threadId : String) : Bool :=
  s.processed.any (fun p => p.1 == threadId)

/-- CPython dict assignment `m[k] = v`: overwrite in place if the key exists,
else append. -/
def dictInsert (m : List (String × Nat)) (k : String) (v : Nat) : List (String × Nat) :=
  if m.any (fun p => p.1 == k) then
    m.map (fun p => if p.1 == k then (k, v) else p)
  else m ++ [(k, v)]

/-- `StateStore.mark_processed`: record the entry and advance
`last_synced_at` to the current time `now`. -/
def markProcessed (s : StateStore) (threadId : String) (processedAt now : Nat) : StateStore :=
  { processed := dictInsert s.processed threadId processedAt, lastSyncedAt := some now }

/-! ### Tag resolution and label building (`DiscordClient.resolve_tag_name`,
`IssueSyncer._build_labels`) -/

/-- `DiscordClient.resolve_tag_name`: the cached channel metadata is the
association list `availableTags`; an unknown id falls back to the id itself. -/
def resolveTagName (availableTags : List (String × String)) (tagId : String) : String :=
  ((availableTags.find? (fun p => p.1 == tagId)).map (fun p => p.2)).getD tagId

/-- `IssueSyncer._sanitize_label`: strip, lower-case, spaces to hyphens,
defaulting to `"untitled"` when the result is empty. -/
def sanitizeLabel (value : String) : String :=
  let normalized := spaceToHyphen (pyLower (pyStrip value))
  if normalized = "" then "untitled" else normalized

/-- One step of the seen/labels accumulation in `_build_labels`: append the
label unless it was already seen. -/
def addLabel (st : List String × List String) (label : String) : List String × List String :=
  if label ∈ st.2 then st else (st.1 ++ [label], label :: st.2)

/-- The fallback label value computed for a tag with no (non-empty) mapping:
`f"..."` of the configured fallback label prefix and the sanitized resolved
tag name, then `.strip()` of the concatenation. -/
def tagFallbackLabel (cfg : BridgeConfig) (availableTags : List (String × String))
    (tagId : String) : String :=
  pyStrip (cfg.fallbackLabelPre ++ sanitizeLabel (resolveTagName availableTags tagId))

/-- The per-tag body of the `_build_labels` loop: a non-empty mapping
contributes its labels; otherwise the fallback label is appended when it is
non-empty (`if mapped:` is Python truthiness, so an empty mapped list also
falls back). -/
def addTag (cfg : BridgeConfig) (availableTags : List (String × String))
    (st : List String × List String) (tagId : String) : List String × List String :=
  match (cfg.tagLabelMap.find? (fun p => p.1 == tagId)).map (fun p => p.2) with
  | some (l :: ls) => (l :: ls).foldl addLabel st
  | _ =>
    let lv := tagFallbackLabel cfg availableTags tagId
    if lv = "" then st else addLabel st lv

/-- `IssueSyncer._build_labels`. -/
def buildLabels (cfg : BridgeConfig) (availableTags : List (String × String))
    (thread : DiscordThread) : List String :=
  (thread.appliedTagIds.foldl (addTag cfg availableTags)
    (cfg.defaultLabels.foldl addLabel ([], []))).1

/-! #### Order-preserving deduplication, for the specification-level reading
of `_build_labels` -/

/-- Remove duplicates keeping first occurrences, with an accumulator of
already-seen values. -/
def dedupAux : List String → List String → List String
  | _, [] => []
  | seen, x :: xs => if x ∈ seen then dedupAux seen xs else x :: dedupAux (x :: seen) xs

/-- The seen-set accumulated by `dedupAux`. -/
def seenAfter : List String → List String → List String
  | seen, [] => seen
  | seen, x :: xs => if x ∈ seen then seenAfter seen xs else seenAfter (x :: seen) xs

/-- Remove duplicates keeping first occurrences. -/
def dedupFirst (l : List String) : List String := dedupAux [] l

/-- The labels contributed by one applied tag, as a list: the mapped labels
when a non-empty mapping exists, else the fallback label when non-empty. -/
def tagChunk (cfg : BridgeConfig) (availableTags : List (String × String))
    (tagId : String) : List String :=
  match (cfg.tagLabelMap.find? (fun p => p.1 == tagId)).map (fun p => p.2) with
  | some (l :: ls) => l :: ls
  | _ =>
    let lv := tagFallbackLabel cfg availableTags tagId
    if lv = "" then [] else [lv]

theorem foldl_addLabel_eq_dedup (xs : List String) :
    ∀ labels seen, xs.foldl addLabel (labels, seen) =
      (labels ++ dedupAux seen xs, seenAfter seen xs) := by
  induction xs with
  | nil => intro labels seen; simp [dedupAux, seenAfter]
  | cons x xs ih =>
    intro labels seen
    rw [List.foldl_cons, dedupAux, seenAfter]
    by_cases hx : x ∈ seen
    · rw [addLabel, if_pos hx, if_pos hx, if_pos hx, ih]
    · rw [addLabel, if_neg hx, if_neg hx, if_neg hx, ih, List.append_assoc]
      rfl

theorem addTag_eq_foldl_chunk (cfg : BridgeConfig) (avail : List (String × String))
    (st : List String × List String) (tagId : String) :
    addTag cfg avail st tagId = (tagChunk cfg avail tagId).foldl addLabel st := by
  rw [addTag, tagChunk]
  cases hm : (cfg.tagLabelMap.find? (fun p => p.1 == tagId)).map (fun p => p.2) with
  | none =>
    dsimp only
    split
    · simp
    · simp [List.foldl_cons]
  | some ls =>
    cases ls with
    | nil =>
      dsimp only
      split
      · simp
      · simp [List.foldl_cons]
    | cons l ls => rfl

theorem buildLabels_eq_dedupFirst (cfg : BridgeConfig) (avail : List (String × String))
    (thread : DiscordThread) :
    buildLabels cfg avail thread =
      dedupFirst (cfg.defaultLabels ++
        thread.appliedTagIds.flatMap (tagChunk cfg avail)) := by
  rw [buildLabels, dedupFirst]
  have hfold : ∀ (tags : List String) (st : List String × List String),
      tags.foldl (addTag cfg avail) st =
        (tags.flatMap (tagChunk cfg avail)).foldl addLabel st := by
    intro tags
    induction tags with
    | nil => intro st; simp
    | cons t ts ih =>
      intro st
      rw [List.foldl_cons, addTag_eq_foldl_chunk, ih, List.flatMap_cons, List.foldl_append]
  rw [hfold, ← List.foldl_append, foldl_addLabel_eq_dedup]
  simp

/-! #### The trimmed fallback label is never empty -/

theorem mem_dropWhile_of_mem {p : Char → Bool} :
    ∀ {l : List Char} {c : Char}, c ∈ l → p c = false → c ∈ l.dropWhile p := by
  intro l
  induction l with
  | nil => intro c h; simp at h
  | cons a l ih =>
    intro c hc hpc
    rw [List.dropWhile_cons]
    split
    · rename_i hpa
      rcases List.mem_cons.mp hc with rfl | hc2
      · rw [hpa] at hpc; simp at hpc
      · exact ih hc2 hpc
    · exact hc

theorem dropWhile_head_false {p : Char → Bool} :
    ∀ {l : List Char} {x : Char} {xs : List Char}, l.dropWhile p = x :: xs → p x = false := by
  intro l
  induction l with
  | nil => intro x xs h; simp at h
  | cons a l ih =>
    intro x xs h
    rw [List.dropWhile_cons] at h
    split at h
    · exact ih h
    · rename_i hpa
      cases h
      simpa using hpa

theorem stripChars_ne_nil {l : List Char} {c : Char} (hc : c ∈ l)
    (hp : pyIsSpace c = false) : pyStripChars l ≠ [] := by
  rw [pyStripChars]
  intro hnil
  have h3 : c ∈ (l.dropWhile pyIsSpace).reverse.dropWhile pyIsSpace :=
    mem_dropWhile_of_mem (List.mem_reverse.mpr (mem_dropWhile_of_mem hc hp)) hp
  rw [List.reverse_eq_nil_iff] at hnil
  rw [hnil] at h3
  simp at h3

theorem stripChars_exists_nonspace {l : List Char} (h : pyStripChars l ≠ []) :
    ∃ c ∈ pyStripChars l, pyIsSpace c = false := by
  rw [pyStripChars] at h ⊢
  cases hi : (l.dropWhile pyIsSpace).reverse.dropWhile pyIsSpace with
  | nil => rw [hi] at h; simp at h
  | cons x xs =>
    refine ⟨x, ?_, dropWhile_head_false hi⟩
    simp

theorem pyIsSpace_toLower {c : Char} (h : pyIsSpace c = false) :
    pyIsSpace (Char.toLower c) = false := by
  rw [Char.toLower]
  split
  · rename_i hr
    have hv : (c.toNat + 32).isValidChar := Or.inl (by omega)
    rw [Char.ofNat, dif_pos hv]
    have ht : (Char.ofNatAux (c.toNat + 32) hv).toNat = c.toNat + 32 := rfl
    simp only [pyIsSpace, ht, Bool.or_eq_false_iff, decide_eq_false_iff_not]
    omega
  · exact h

theorem sanitizeLabel_exists_nonspace (v : String) :
    ∃ c ∈ (sanitizeLabel v).data, pyIsSpace c = false := by
  rw [sanitizeLabel]
  split
  · exact ⟨'u', by decide, by decide⟩
  · rename_i hne
    have hdata : (spaceToHyphen (pyLower (pyStrip v))).data =
        ((pyStripChars v.data).map Char.toLower).map (fun c => if c = ' ' then '-' else c) := rfl
    have hstrip : pyStripChars v.data ≠ [] := by
      intro h0
      apply hne
      rw [pyStrip, h0]
      rfl
    obtain ⟨c, hc, hcs⟩ := stripChars_exists_nonspace hstrip
    refine ⟨(fun c => if c = ' ' then '-' else c) (Char.toLower c), ?_, ?_⟩
    · rw [hdata]
      exact List.mem_map_of_mem _ (List.mem_map_of_mem _ hc)
    · dsimp only
      split
      · decide
      · exact pyIsSpace_toLower hcs

theorem tagFallbackLabel_ne_empty (cfg : BridgeConfig) (avail : List (String × String))
    (tagId : String) : tagFallbackLabel cfg avail tagId ≠ "" := by
  rw [tagFallbackLabel, pyStrip]
  obtain ⟨c, hc, hcs⟩ := sanitizeLabel_exists_nonspace (resolveTagName avail tagId)
  have hmem : c ∈ (cfg.fallbackLabelPre ++ sanitizeLabel (resolveTagName avail tagId)).data := by
    rw [String.data_append]
    exact List.mem_append_right _ hc
  intro h
  exact stripChars_ne_nil hmem hcs (congrArg String.data h)

theorem tagChunk_of_unmapped {cfg : BridgeConfig} {avail : List (String × String)}
    {tagId : String} (hm : cfg.tagLabelMap.find? (fun p => p.1 == tagId) = none) :
    tagChunk cfg avail tagId = [tagFallbackLabel cfg avail tagId] := by
  rw [tagChunk, hm]
  simp only [Option.map_none']
  rw [if_neg (tagFallbackLabel_ne_empty cfg avail tagId)]

/-! ### Claims C6 and C10 -/

/-- A minimal first message used by the concrete label scenarios. -/
def labelMsg : DiscordMessage :=
  { id := "m1", authorId := "a1", authorName := "Author", content := "hi",
    timestamp := 1, attachments := [] }

/-- A thread carrying exactly the applied tags `tags`. -/
def labelThread (tags : List String) : DiscordThread :=
  { id := "t1", guildId := none, channelId := "c1", name := "X", ownerId := "o1",
    createdAt := 1, appliedTagIds := tags, firstMessage := labelMsg }

/-- Channel metadata resolving `tag1` to the display name `Crash Report`. -/
def crashAvail : List (String × String) := [("tag1", "Crash Report")]

/-- The label rule exactly as claim C6 words it: for each applied tag, its
mapped labels whenever a mapping entry exists (even an empty one), else a
single fallback label equal to the fallback prefix plus the tag display name
lower-cased with spaces replaced by hyphens; duplicates removed across the
whole list keeping first occurrences. -/
def buildLabelsClaimC6 (cfg : BridgeConfig) (avail : List (String × String))
    (thread : DiscordThread) : List String :=
  dedupFirst (cfg.defaultLabels ++ thread.appliedTagIds.flatMap (fun tagId =>
    match (cfg.tagLabelMap.find? (fun p => p.1 == tagId)).map (fun p => p.2) with
    | some ls => ls
    | none => [cfg.fallbackLabelPre ++ spaceToHyphen (pyLower (resolveTagName avail tagId))]))

/-- Configuration mapping `tag1` to the empty label list. -/
def emptyMapCfg : BridgeConfig :=
  { issueTitlePre := "", issueBodyTemplate := "", defaultLabels := [],
    tagLabelMap := [("tag1", [])], fallbackLabelPre := "discord/tag/",
    assignees := [], maxThreadsPerRun := 20 }

/-- Claim C6 counterexample: a tag whose mapping entry is the empty list.  By
the claim as stated the mapping exists, so its (empty) mapped labels are
appended and no label results; the code treats the empty mapping as falsy
(`if mapped:`) and emits the fallback label instead. -/
theorem buildLabels_claim_counterexample :
    buildLabels emptyMapCfg crashAvail (labelThread ["tag1"]) = ["discord/tag/crash-report"] ∧
    buildLabelsClaimC6 emptyMapCfg crashAvail (labelThread ["tag1"]) = [] ∧
    buildLabels emptyMapCfg crashAvail (labelThread ["tag1"]) ≠
      buildLabelsClaimC6 emptyMapCfg crashAvail (labelThread ["tag1"]) := by
  refine ⟨by decide, by decide, by decide⟩

/-- Configuration for the deduplication example of C6. -/
def dedupCfg : BridgeConfig :=
  { issueTitlePre := "", issueBodyTemplate := "", defaultLabels := ["discord", "triage"],
    tagLabelMap := [("tag1", ["discord"])], fallbackLabelPre := "discord/tag/",
    assignees := [], maxThreadsPerRun := 20 }

/-- Configuration for the fallback-sanitization example of C6. -/
def fallbackCfg : BridgeConfig :=
  { issueTitlePre := "", issueBodyTemplate := "", defaultLabels := [],
    tagLabelMap := [], fallbackLabelPre := "discord/tag/",
    assignees := [], maxThreadsPerRun := 20 }

/-- Claim C6 (amended): `_build_labels` returns the configured default labels
followed by, for each applied tag in order, its mapped labels when a
*non-empty* mapping exists and otherwise a single fallback label — the
whitespace-trimmed concatenation of the fallback prefix and the sanitized
(trimmed, lower-cased, space-to-hyphen, `"untitled"` when empty) resolved tag
name, appended only when non-empty — with duplicates removed across the whole
list keeping first occurrences.  The two concrete examples of the claim hold:
defaults `["discord","triage"]` plus a tag mapped to `["discord"]` keep
`"discord"` exactly once with the default ordering first, and an unmapped tag
displayed `"Crash Report"` with prefix `"discord/tag/"` yields
`"discord/tag/crash-report"`. -/
theorem buildLabels_spec :
    (∀ cfg avail thread, buildLabels cfg avail thread =
      dedupFirst (cfg.defaultLabels ++ thread.appliedTagIds.flatMap (tagChunk cfg avail))) ∧
    buildLabels dedupCfg crashAvail (labelThread ["tag1"]) = ["discord", "triage"] ∧
    (buildLabels dedupCfg crashAvail (labelThread ["tag1"])).count "discord" = 1 ∧
    buildLabels fallbackCfg crashAvail (labelThread ["tag1"]) = ["discord/tag/crash-report"] :=
  ⟨buildLabels_eq_dedupFirst, by decide, by decide, by decide⟩

/-- Claim C10 counterexample: the claim states the fallback label equals the
fallback prefix plus the sanitized tag identity, but the code strips the
*concatenation*, so a prefix with leading whitespace loses it. -/
def spacePreCfg : BridgeConfig :=
  { issueTitlePre := "", issueBodyTemplate := "", defaultLabels := [],
    tagLabelMap := [], fallbackLabelPre := " discord/tag/",
    assignees := [], maxThreadsPerRun := 20 }

/-- Claim C10 counterexample: with fallback prefix `" discord/tag/"` (leading
space) and the unmapped, unresolvable tag identity `"123"`, the code emits
`"discord/tag/123"`, not the claimed prefix-plus-sanitized-identity
`" discord/tag/123"`. -/
theorem resolveTag_fallback_counterexample :
    resolveTagName [] "123" = "123" ∧
    buildLabels spacePreCfg [] (labelThread ["123"]) = ["discord/tag/123"] ∧
    spacePreCfg.fallbackLabelPre ++ sanitizeLabel "123" = " discord/tag/123" ∧
    buildLabels spacePreCfg [] (labelThread ["123"]) ≠
      [spacePreCfg.fallbackLabelPre ++ sanitizeLabel "123"] := by
  refine ⟨by decide, by decide, by decide, by decide⟩

/-- Claim C10 (amended): `resolve_tag_name` never fails — a tag identity
absent from the channel metadata resolves to the identity itself — and a tag
that is both unmapped in the tag-label map and unresolvable in channel
metadata contributes exactly one fallback label, the whitespace-trimmed
concatenation of the fallback prefix and the sanitized tag identity; a thread
whose only applied tag it is therefore gets the deduplicated default labels
followed by that label. -/
theorem resolveTag_fallback_spec :
    (∀ avail tagId, avail.find? (fun p => p.1 == tagId) = none →
      resolveTagName avail tagId = tagId) ∧
    (∀ cfg avail tagId, cfg.tagLabelMap.find? (fun p => p.1 == tagId) = none →
      avail.find? (fun p => p.1 == tagId) = none →
      tagChunk cfg avail tagId = [pyStrip (cfg.fallbackLabelPre ++ sanitizeLabel tagId)]) ∧
    (∀ cfg avail tagId (thread : DiscordThread),
      cfg.tagLabelMap.find? (fun p => p.1 == tagId) = none →
      avail.find? (fun p => p.1 == tagId) = none →
      thread.appliedTagIds = [tagId] →
      buildLabels cfg avail thread =
        dedupFirst (cfg.defaultLabels ++ [pyStrip (cfg.fallbackLabelPre ++ sanitizeLabel tagId)])) := by
  have hres : ∀ (avail : List (String × String)) tagId,
      avail.find? (fun p => p.1 == tagId) = none → resolveTagName avail tagId = tagId := by
    intro avail tagId h
    rw [resolveTagName, h]
    rfl
  have hchunk : ∀ (cfg : BridgeConfig) (avail : List (String × String)) tagId,
      cfg.tagLabelMap.find? (fun p => p.1 == tagId) = none →
      avail.find? (fun p => p.1 == tagId) = none →
      tagChunk cfg avail tagId = [pyStrip (cfg.fallbackLabelPre ++ sanitizeLabel tagId)] := by
    intro cfg avail tagId hm ha
    rw [tagChunk_of_unmapped hm, tagFallbackLabel, hres avail tagId ha]
  refine ⟨hres, hchunk, ?_⟩
  intro cfg avail tagId thread hm ha htags
  rw [buildLabels_eq_dedupFirst, htags, List.flatMap_cons, hchunk cfg avail tagId hm ha]
  simp

/-- Witness for C10: the amended statement applied to a concrete unmapped,
unresolvable tag. -/
theorem resolveTag_fallback_spec_witness :
    resolveTagName [] "99" = "99" ∧
    tagChunk fallbackCfg [] "99" = [pyStrip (fallbackCfg.fallbackLabelPre ++ sanitizeLabel "99")] ∧
    buildLabels fallbackCfg [] (labelThread ["99"]) =
      dedupFirst (fallbackCfg.defaultLabels ++
        [pyStrip (fallbackCfg.fallbackLabelPre ++ sanitizeLabel "99")]) :=
  ⟨resolveTag_fallback_spec.1 [] "99" rfl,
   resolveTag_fallback_spec.2.1 fallbackCfg [] "99" rfl rfl,
   resolveTag_fallback_spec.2.2 fallbackCfg [] "99" (labelThread ["99"]) rfl rfl rfl⟩

/-! ### `DiscordClient.fetch_threads` (live per-thread loop and
`_threads_from_offline`)

The live path is modelled from the point where the paginated payloads have
been collected (`collected` in the source); network pagination itself is the
parameter.  `created_at` in a payload is the value already produced by
`_extract_created_at` (live) or `_parse_timestamp` (offline), and `messages`
is the `fetch_thread_messages` result for that thread. -/

/-- The fields of one thread payload read by the per-thread loops. -/
structure ThreadPayload where
  id : String
  guildId : Option String
  name : Option String
  ownerId : Option String
  createdAt : Nat
  appliedTags : List String
  messages : List DiscordMessage
deriving DecidableEq

/-- Python `min(messages, key=lambda msg: msg.timestamp)`: left scan keeping
the first minimum. -/
def firstMin : DiscordMessage → List DiscordMessage → DiscordMessage
  | m, [] => m
  | m, x :: xs => firstMin (if x.timestamp < m.timestamp then x else m) xs

/-- `if since and created_at <= since: continue`. -/
def sinceSkip (since : Option Nat) (createdAt : Nat) : Bool :=
  match since with
  | some s => createdAt ≤ s
  | none => false

/-- `if limit and len(threads) >= limit: break` — Python truthiness, so a
limit of `0` never triggers the break. -/
def limitHit (limit : Option Nat) (n : Nat) : Bool :=
  match limit with
  | some l => l ≠ 0 && l ≤ n
  | none => false

/-- `str(...) if thread_payload.get("guild_id") else None`. -/
def normGuild (g : Option String) : Option String :=
  match g with
  | some s => if s = "" then none else some s
  | none => none

/-- The per-thread loop of `fetch_threads` in live mode (source lines
104-128): filter by `since` on the reported creation time, drop threads
without messages, take the earliest message, raise `created_at` to the first
message's timestamp when it is earlier (`if created_at <
first_message.timestamp`), and stop once the limit is hit. -/
def liveLoop (channelId : String) (since limit : Option Nat) :
    List ThreadPayload → Nat → List DiscordThread
  | [], _ => []
  | p :: ps, cnt =>
    if sinceSkip since p.createdAt then liveLoop channelId since limit ps cnt
    else
      match p.messages with
      | [] => liveLoop channelId since limit ps cnt
      | m :: ms =>
        { id := p.id, guildId := normGuild p.guildId, channelId := channelId,
          name := p.name.getD "(no title)", ownerId := p.ownerId.getD "",
          createdAt := if p.createdAt < (firstMin m ms).timestamp
            then (firstMin m ms).timestamp else p.createdAt,
          appliedTagIds := p.appliedTags, firstMessage := firstMin m ms } ::
          (if limitHit limit (cnt + 1) then []
           else liveLoop channelId since limit ps (cnt + 1))

/-- Comparison key of the final `threads.sort(key=lambda t: t.created_at)`. -/
def threadLE (a b : DiscordThread) : Bool := a.createdAt ≤ b.createdAt

/-- `fetch_threads` in live mode from the collected payloads: the per-thread
loop followed by the stable sort on creation time. -/
def fetchThreadsLive (channelId : String) (since limit : Option Nat)
    (collected : List ThreadPayload) : List DiscordThread :=
  (liveLoop channelId since limit collected 0).mergeSort threadLE

/-- The per-thread loop of `_threads_from_offline` (source lines 157-179):
identical to the live loop except that the reported creation time is emitted
unchanged (no comparison against the first message). -/
def offlineLoop (channelId : String) (since limit : Option Nat) :
    List ThreadPayload → Nat → List DiscordThread
  | [], _ => []
  | p :: ps, cnt =>
    if sinceSkip since p.createdAt then offlineLoop channelId since limit ps cnt
    else
      match p.messages with
      | [] => offlineLoop channelId since limit ps cnt
      | m :: ms =>
        { id := p.id, guildId := normGuild p.guildId, channelId := channelId,
          name := p.name.getD "(no title)", ownerId := p.ownerId.getD "",
          createdAt := p.createdAt,
          appliedTagIds := p.appliedTags, firstMessage := firstMin m ms } ::
          (if limitHit limit (cnt + 1) then []
           else offlineLoop channelId since limit ps (cnt + 1))

/-- `fetch_threads` in offline-fixture mode: `_threads_from_offline`. -/
def threadsFromOffline (channelId : String) (since limit : Option Nat)
    (payloads : List ThreadPayload) : List DiscordThread :=
  (offlineLoop channelId since limit payloads 0).mergeSort threadLE

/-! #### Fetch lemmas -/

theorem liveLoop_first_le_created (channelId : String) (since limit : Option Nat) :
    ∀ (ps : List ThreadPayload) (cnt : Nat), ∀ t ∈ liveLoop channelId since limit ps cnt,
      t.firstMessage.timestamp ≤ t.createdAt := by
  intro ps
  induction ps with
  | nil => intro cnt t ht; simp [liveLoop] at ht
  | cons p ps ih =>
    intro cnt t ht
    rw [liveLoop] at ht
    split at ht
    · exact ih cnt t ht
    · split at ht
      · exact ih cnt t ht
      · rename_i m ms _
        rcases List.mem_cons.mp ht with rfl | ht2
        · dsimp only
          split
          · exact Nat.le_refl _
          · rename_i hlt
            omega
        · split at ht2
          · simp at ht2
          · exact ih (cnt + 1) t ht2

theorem offlineLoop_created_reported (channelId : String) (since limit : Option Nat) :
    ∀ (ps : List ThreadPayload) (cnt : Nat), ∀ t ∈ offlineLoop channelId since limit ps cnt,
      ∃ p ∈ ps, t.createdAt = p.createdAt ∧ t.id = p.id := by
  intro ps
  induction ps with
  | nil => intro cnt t ht; simp [offlineLoop] at ht
  | cons p ps ih =>
    intro cnt t ht
    rw [offlineLoop] at ht
    split at ht
    · obtain ⟨q, hq, hqe⟩ := ih cnt t ht
      exact ⟨q, List.mem_cons_of_mem _ hq, hqe⟩
    · split at ht
      · obtain ⟨q, hq, hqe⟩ := ih cnt t ht
        exact ⟨q, List.mem_cons_of_mem _ hq, hqe⟩
      · rcases List.mem_cons.mp ht with rfl | ht2
        · exact ⟨p, List.mem_cons_self _ _, rfl, rfl⟩
        · split at ht2
          · simp at ht2
          · obtain ⟨q, hq, hqe⟩ := ih (cnt + 1) t ht2
            exact ⟨q, List.mem_cons_of_mem _ hq, hqe⟩

theorem liveLoop_since (channelId : String) (s : Nat) (limit : Option Nat) :
    ∀ (ps : List ThreadPayload) (cnt : Nat), ∀ t ∈ liveLoop channelId (some s) limit ps cnt,
      s < t.createdAt := by
  intro ps
  induction ps with
  | nil => intro cnt t ht; simp [liveLoop] at ht
  | cons p ps ih =>
    intro cnt t ht
    rw [liveLoop] at ht
    split at ht
    · exact ih cnt t ht
    · rename_i hskip
      have hgt : s < p.createdAt := by
        simp only [sinceSkip, Bool.not_eq_true, decide_eq_false_iff_not] at hskip
        omega
      split at ht
      · exact ih cnt t ht
      · rcases List.mem_cons.mp ht with rfl | ht2
        · dsimp only
          split
          · omega
          · exact hgt
        · split at ht2
          · simp at ht2
          · exact ih (cnt + 1) t ht2

theorem offlineLoop_since (channelId : String) (s : Nat) (limit : Option Nat) :
    ∀ (ps : List ThreadPayload) (cnt : Nat), ∀ t ∈ offlineLoop channelId (some s) limit ps cnt,
      s < t.createdAt := by
  intro ps
  induction ps with
  | nil => intro cnt t ht; simp [offlineLoop] at ht
  | cons p ps ih =>
    intro cnt t ht
    rw [offlineLoop] at ht
    split at ht
    · exact ih cnt t ht
    · rename_i hskip
      have hgt : s < p.createdAt := by
        simp only [sinceSkip, Bool.not_eq_true, decide_eq_false_iff_not] at hskip
        omega
      split at ht
      · exact ih cnt t ht
      · rcases List.mem_cons.mp ht with rfl | ht2
        · exact hgt
        · split at ht2
          · simp at ht2
          · exact ih (cnt + 1) t ht2

theorem liveLoop_length (channelId : String) (since : Option Nat) (l : Nat) :
    ∀ (ps : List ThreadPayload) (cnt : Nat), l ≠ 0 → cnt < l →
      (liveLoop channelId since (some l) ps cnt).length + cnt ≤ l := by
  intro ps
  induction ps with
  | nil => intro cnt _ hcnt; simp [liveLoop]; omega
  | cons p ps ih =>
    intro cnt hl hcnt
    rw [liveLoop]
    split
    · exact ih cnt hl hcnt
    · split
      · exact ih cnt hl hcnt
      · cases hstop : limitHit (some l) (cnt + 1) with
        | true =>
          rw [if_pos rfl]
          have h2 : l ≤ cnt + 1 := by
            simp only [limitHit, Bool.and_eq_true, decide_eq_true_eq] at hstop
            exact hstop.2
          simp only [List.length_cons, List.length_nil]
          omega
        | false =>
          rw [if_neg (show ¬(false = true) by decide)]
          have hlt : cnt + 1 < l := by
            by_contra hcon
            have h2 : limitHit (some l) (cnt + 1) = true := by
              simp only [limitHit, Bool.and_eq_true, decide_eq_true_eq]
              omega
            rw [hstop] at h2
            cases h2
          have := ih (cnt + 1) hl hlt
          simp only [List.length_cons]
          omega

theorem offlineLoop_length (channelId : String) (since : Option Nat) (l : Nat) :
    ∀ (ps : List ThreadPayload) (cnt : Nat), l ≠ 0 → cnt < l →
      (offlineLoop channelId since (some l) ps cnt).length + cnt ≤ l := by
  intro ps
  induction ps with
  | nil => intro cnt _ hcnt; simp [offlineLoop]; omega
  | cons p ps ih =>
    intro cnt hl hcnt
    rw [offlineLoop]
    split
    · exact ih cnt hl hcnt
    · split
      · exact ih cnt hl hcnt
      · cases hstop : limitHit (some l) (cnt + 1) with
        | true =>
          rw [if_pos rfl]
          have h2 : l ≤ cnt + 1 := by
            simp only [limitHit, Bool.and_eq_true, decide_eq_true_eq] at hstop
            exact hstop.2
          simp only [List.length_cons, List.length_nil]
          omega
        | false =>
          rw [if_neg (show ¬(false = true) by decide)]
          have hlt : cnt + 1 < l := by
            by_contra hcon
            have h2 : limitHit (some l) (cnt + 1) = true := by
              simp only [limitHit, Bool.and_eq_true, decide_eq_true_eq]
              omega
            rw [hstop] at h2
            cases h2
          have := ih (cnt + 1) hl hlt
          simp only [List.length_cons]
          omega

theorem pairwise_mergeSort_created (l : List DiscordThread) :
    List.Pairwise (fun a b => a.createdAt ≤ b.createdAt) (l.mergeSort threadLE) := by
  have h := @List.sorted_mergeSort _ threadLE
    (fun a b c hab hbc => by
      simp only [threadLE, decide_eq_true_eq] at hab hbc ⊢
      omega)
    (fun a b => by
      simp only [threadLE]
      rcases Nat.le_total a.createdAt b.createdAt with h | h <;> simp [h])
    l
  exact h.imp (fun hab => by simpa [threadLE] using hab)

/-! ### Claims C1 and C5 -/

/-- A first message at instant 5. -/
def lateMsg : DiscordMessage :=
  { id := "m1", authorId := "a1", authorName := "Author", content := "body",
    timestamp := 5, attachments := [] }

/-- A payload whose reported creation time (10) is later than its first
message's timestamp (5). -/
def latePayload : ThreadPayload :=
  { id := "p1", guildId := none, name := some "T", ownerId := some "o1",
    createdAt := 10, appliedTags := [], messages := [lateMsg] }

/-- The thread the client emits for `latePayload`. -/
def lateThread : DiscordThread :=
  { id := "p1", guildId := none, channelId := "c", name := "T", ownerId := "o1",
    createdAt := 10, appliedTagIds := [], firstMessage := lateMsg }

/-- Claim C1 counterexample: a live-mode thread whose reported creation time
(10) is later than its first message's timestamp (5) is emitted with creation
time 10, *not* clamped down to 5 — the code's comparison
(`if created_at < first_message.timestamp`) only ever raises the creation
time, so the claimed invariant `created_at ≤ first_message.timestamp` fails. -/
theorem creation_clamp_counterexample :
    fetchThreadsLive "c" none none [latePayload] = [lateThread] ∧
    lateThread.firstMessage.timestamp < lateThread.createdAt := by
  constructor
  · rw [fetchThreadsLive]
    have h1 : liveLoop "c" none none [latePayload] 0 = [lateThread] := by decide
    rw [h1, List.mergeSort_singleton]
  · decide

/-- Claim C1 (amended): the clamp goes the other way — in live mode the
emitted creation timestamp is never *earlier* than the first message's
timestamp (a reported creation time earlier than the first message is raised
to the first message's timestamp), and in offline-fixture mode no clamping
happens at all: every emitted thread carries the reported creation timestamp
of its payload unchanged. -/
theorem creation_clamp_amended :
    (∀ channelId since limit collected,
      ∀ t ∈ fetchThreadsLive channelId since limit collected,
        t.firstMessage.timestamp ≤ t.createdAt) ∧
    (∀ channelId since limit payloads,
      ∀ t ∈ threadsFromOffline channelId since limit payloads,
        ∃ p ∈ payloads, t.createdAt = p.createdAt ∧ t.id = p.id) := by
  constructor
  · intro channelId since limit collected t ht
    rw [fetchThreadsLive, List.mem_mergeSort] at ht
    exact liveLoop_first_le_created channelId since limit collected 0 t ht
  · intro channelId since limit payloads t ht
    rw [threadsFromOffline, List.mem_mergeSort] at ht
    exact offlineLoop_created_reported channelId since limit payloads 0 t ht

/-- Witness for C1 (amended): the amended statement applied to the concrete
late payload. -/
theorem creation_clamp_amended_witness :
    lateThread.firstMessage.timestamp ≤ lateThread.createdAt ∧
    (∃ p ∈ [latePayload], lateThread.createdAt = p.createdAt ∧ lateThread.id = p.id) := by
  have hmem : lateThread ∈ fetchThreadsLive "c" none none [latePayload] := by
    rw [fetchThreadsLive]
    have h1 : liveLoop "c" none none [latePayload] 0 = [lateThread] := by decide
    rw [h1, List.mergeSort_singleton]
    exact List.mem_singleton_self _
  have hmem2 : lateThread ∈ threadsFromOffline "c" none none [latePayload] := by
    rw [threadsFromOffline]
    have h1 : offlineLoop "c" none none [latePayload] 0 = [lateThread] := by decide
    rw [h1, List.mergeSort_singleton]
    exact List.mem_singleton_self _
  exact ⟨creation_clamp_amended.1 "c" none none [latePayload] lateThread hmem,
    creation_clamp_amended.2 "c" none none [latePayload] lateThread hmem2⟩

/-- Claim C5 counterexample: `limit` is tested with Python truthiness
(`if limit and ...`), so the given limit `0` never triggers the break and the
result may have more than `0` entries. -/
theorem fetch_limit_counterexample :
    (threadsFromOffline "c" none (some 0) [latePayload]).length = 1 ∧
    ¬ (threadsFromOffline "c" none (some 0) [latePayload]).length ≤ 0 := by
  have h1 : offlineLoop "c" none (some 0) [latePayload] 0 = [lateThread] := by decide
  constructor
  · rw [threadsFromOffline, h1, List.mergeSort_singleton]
    rfl
  · rw [threadsFromOffline, h1, List.mergeSort_singleton]
    decide

/-- Claim C5 (amended): in both live and offline-fixture modes,
`fetch_threads` returns a list sorted ascending by the emitted creation
timestamp, containing only threads whose creation timestamp is strictly newer
than `since` when `since` is given, and — provided the given limit is
*positive* (a limit of `0` is falsy in Python and imposes no bound) — at most
`limit` entries. -/
theorem fetchThreads_contract :
    (∀ channelId since limit collected,
      List.Pairwise (fun a b => a.createdAt ≤ b.createdAt)
        (fetchThreadsLive channelId since limit collected)) ∧
    (∀ channelId since limit payloads,
      List.Pairwise (fun a b => a.createdAt ≤ b.createdAt)
        (threadsFromOffline channelId since limit payloads)) ∧
    (∀ channelId s limit collected,
      ∀ t ∈ fetchThreadsLive channelId (some s) limit collected, s < t.createdAt) ∧
    (∀ channelId s limit payloads,
      ∀ t ∈ threadsFromOffline channelId (some s) limit payloads, s < t.createdAt) ∧
    (∀ channelId since l collected, 0 < l →
      (fetchThreadsLive channelId since (some l) collected).length ≤ l) ∧
    (∀ channelId since l payloads, 0 < l →
      (threadsFromOffline channelId since (some l) payloads).length ≤ l) := by
  refine ⟨?_, ?_, ?_, ?_, ?_, ?_⟩
  · intro channelId since limit collected
    exact pairwise_mergeSort_created _
  · intro channelId since limit payloads
    exact pairwise_mergeSort_created _
  · intro channelId s limit collected t ht
    rw [fetchThreadsLive, List.mem_mergeSort] at ht
    exact liveLoop_since channelId s limit collected 0 t ht
  · intro channelId s limit payloads t ht
    rw [threadsFromOffline, List.mem_mergeSort] at ht
    exact offlineLoop_since channelId s limit payloads 0 t ht
  · intro channelId since l collected hl
    rw [fetchThreadsLive, List.length_mergeSort]
    have := liveLoop_length channelId since l collected 0 (by omega) hl
    omega
  · intro channelId since l payloads hl
    rw [threadsFromOffline, List.length_mergeSort]
    have := offlineLoop_length channelId since l payloads 0 (by omega) hl
    omega

/-- Witness for C5 (amended): the contract applied to the concrete late
payload with `since = 3` and limit `1`. -/
theorem fetchThreads_contract_witness :
    List.Pairwise (fun a b => a.createdAt ≤ b.createdAt)
      (fetchThreadsLive "c" none none [latePayload]) ∧
    (∀ t ∈ threadsFromOffline "c" (some 3) none [latePayload], 3 < t.createdAt) ∧
    (threadsFromOffline "c" none (some 1) [latePayload]).length ≤ 1 :=
  ⟨fetchThreads_contract.1 "c" none none [latePayload],
   fetchThreads_contract.2.2.2.1 "c" 3 none [latePayload],
   fetchThreads_contract.2.2.2.2.2 "c" none 1 [latePayload] (by decide)⟩

/-! ### `IssueSyncer.run` (the orchestrator loop)

The run is modelled as a pure fold over the fetched thread list carrying the
ledger state; `now` is the run's clock (`datetime.now(timezone.utc)`, one
instant per run).  The trace of `GitHubClient.create_issue` calls is returned
as `issues` (paired with the source thread), the trace of
`StateStore.mark_processed` calls as `marks`, and the final persisted ledger
(`StateStore.save` writes the in-memory state) as `state`. -/

/-- The rendering of an abstract timestamp by `datetime.isoformat`: any
injective rendering; we use the decimal numeral. -/
def isoUtc (n : Nat) : String := Nat.repr n

/-- `DiscordThread.jump_url` (`if not self.guild_id` is Python truthiness). -/
def jumpUrl (t : DiscordThread) : String :=
  if t.guildId.getD "" = "" then
    "https://discord.com/channels/@me/" ++ t.id ++ "/" ++ t.firstMessage.id
  else
    "https://discord.com/channels/" ++ t.guildId.getD "" ++ "/" ++ t.id ++ "/" ++
      t.firstMessage.id

/-- `IssueSyncer._format_attachments`. -/
def formatAttachments (t : DiscordThread) : String :=
  if t.firstMessage.attachments = [] then "- なし"
  else
    String.intercalate "\n" (t.firstMessage.attachments.map (fun a =>
      "- [" ++ (if a.filename = "" then "attachment" else a.filename) ++ "](" ++ a.url ++ ")"))

/-- `IssueSyncer._build_body`: render the configured template against the
per-thread context. -/
def buildBody (cfg : BridgeConfig) (t : DiscordThread) : Except String String :=
  render cfg.issueBodyTemplate
    [("title", t.name),
     ("author", t.firstMessage.authorName),
     ("message_url", jumpUrl t),
     ("content", if t.firstMessage.content = "" then "(本文なし)" else t.firstMessage.content),
     ("attachments", formatAttachments t),
     ("created_at", isoUtc t.createdAt),
     ("thread_id", t.id)]

/-- The issue title: `f"{prefix}{thread.name}".strip()` — the *concatenation*
is stripped. -/
def issueTitle (cfg : BridgeConfig) (t : DiscordThread) : String :=
  pyStrip (cfg.issueTitlePre ++ t.name)

/-- One `GitHubClient.create_issue` call, as submitted. -/
structure IssueRequest where
  title : String
  body : String
  labels : List String
  assignees : List String
deriving DecidableEq

/-- The per-thread loop of `IssueSyncer.run` (source lines 42-52): skip
already-processed threads; otherwise build title, labels and body, submit the
issue, and mark the thread processed.  A template error aborts the run
(`Except.error`). -/
def runLoop (cfg : BridgeConfig) (avail : List (String × String)) (now : Nat) :
    List DiscordThread → StateStore →
    Except String (List (DiscordThread × IssueRequest) × List (String × Nat) × StateStore × Nat)
  | [], s => .ok ([], [], s, 0)
  | t :: ts, s =>
    if hasProcessed s t.id then runLoop cfg avail now ts s
    else
      match buildBody cfg t with
      | .error e => .error e
      | .ok body =>
        match runLoop cfg avail now ts (markProcessed s t.id t.createdAt now) with
        | .error e => .error e
        | .ok (is, ms, sf, n) =>
          .ok ((t, ⟨issueTitle cfg t, body, buildLabels cfg avail t, cfg.assignees⟩) :: is,
            (t.id, t.createdAt) :: ms, sf, n + 1)

/-- Result of one orchestrator run. -/
structure RunResult where
  issues : List (DiscordThread × IssueRequest)
  marks : List (String × Nat)
  state : StateStore
  count : Nat
deriving DecidableEq

/-- The post-loop persistence step (source lines 54-58): save as-is when at
least one thread was processed or the ledger was never synced; otherwise
advance `last_synced_at` to the run time and save that heartbeat. -/
def finishRun (count : Nat) (s : StateStore) (now : Nat) : StateStore :=
  if count ≠ 0 ∨ s.lastSyncedAt = none then s else { s with lastSyncedAt := some now }

/-- `IssueSyncer.run` over an already-fetched thread list. -/
def runOnThreads (cfg : BridgeConfig) (avail : List (String × String)) (now : Nat)
    (ts : List DiscordThread) (s0 : StateStore) : Except String RunResult :=
  match runLoop cfg avail now ts s0 with
  | .error e => .error e
  | .ok (is, ms, s, n) => .ok ⟨is, ms, finishRun n s now, n⟩

/-! #### Run lemmas -/

theorem hasProcessed_mark_self (s : StateStore) (k : String) (v now : Nat) :
    hasProcessed (markProcessed s k v now) k = true := by
  rw [hasProcessed, markProcessed]
  dsimp only
  rw [dictInsert]
  split
  · rename_i hpres
    rw [List.any_map]
    rw [List.any_eq_true] at hpres ⊢
    obtain ⟨p, hp, hpk⟩ := hpres
    refine ⟨p, hp, ?_⟩
    simp only [Function.comp_apply, hpk, if_pos]
    simp
  · rw [List.any_append]
    simp

theorem hasProcessed_mark_mono {s : StateStore} {tid : String} (k : String) (v now : Nat)
    (h : hasProcessed s tid = true) :
    hasProcessed (markProcessed s k v now) tid = true := by
  rw [hasProcessed, markProcessed] at *
  dsimp only at *
  rw [dictInsert]
  split
  · rw [List.any_map]
    rw [List.any_eq_true] at h ⊢
    obtain ⟨p, hp, hpt⟩ := h
    refine ⟨p, hp, ?_⟩
    simp only [Function.comp_apply]
    by_cases hpk : (p.1 == k) = true
    · rw [if_pos hpk]
      simp only [beq_iff_eq] at hpk hpt ⊢
      rw [← hpk, hpt]
    · rw [if_neg hpk]
      exact hpt
  · rw [List.any_append, h]
    simp

theorem hasProcessed_finishRun (n : Nat) (s : StateStore) (now : Nat) (tid : String) :
    hasProcessed (finishRun n s now) tid = hasProcessed s tid := by
  rw [finishRun]
  split <;> rfl

theorem runLoop_processed (cfg : BridgeConfig) (avail : List (String × String)) (now : Nat) :
    ∀ (ts : List DiscordThread) (s : StateStore) is ms sf n,
      runLoop cfg avail now ts s = .ok (is, ms, sf, n) →
      (∀ tid, hasProcessed s tid = true → hasProcessed sf tid = true) ∧
      (∀ t ∈ ts, hasProcessed sf t.id = true) := by
  intro ts
  induction ts with
  | nil =>
    intro s is ms sf n h
    rw [runLoop] at h
    cases h
    exact ⟨fun tid ht => ht, by simp⟩
  | cons t ts ih =>
    intro s is ms sf n h
    rw [runLoop] at h
    split at h
    · rename_i hskip
      obtain ⟨hmono, hall⟩ := ih s is ms sf n h
      refine ⟨hmono, ?_⟩
      intro u hu
      rcases List.mem_cons.mp hu with rfl | hu2
      · exact hmono u.id hskip
      · exact hall u hu2
    · rename_i hskip
      cases hbody : buildBody cfg t with
      | error e => rw [hbody] at h; exact absurd h (by simp)
      | ok body =>
        rw [hbody] at h
        cases hrec : runLoop cfg avail now ts (markProcessed s t.id t.createdAt now) with
        | error e => rw [hrec] at h; exact absurd h (by simp)
        | ok q =>
          obtain ⟨is2, ms2, sf2, n2⟩ := q
          rw [hrec] at h
          simp only [Except.ok.injEq, Prod.mk.injEq] at h
          obtain ⟨his, hms, hsf, hn⟩ := h
          subst his; subst hms; subst hsf; subst hn
          obtain ⟨hmono, hall⟩ := ih _ is2 ms2 sf2 n2 hrec
          refine ⟨?_, ?_⟩
          · intro tid ht
            exact hmono tid (hasProcessed_mark_mono t.id t.createdAt now ht)
          · intro u hu
            rcases List.mem_cons.mp hu with rfl | hu2
            · exact hmono u.id (hasProcessed_mark_self s u.id u.createdAt now)
            · exact hall u hu2

theorem runLoop_all_skipped (cfg : BridgeConfig) (avail : List (String × String)) (now : Nat) :
    ∀ (ts : List DiscordThread) (s : StateStore),
      (∀ t ∈ ts, hasProcessed s t.id = true) →
      runLoop cfg avail now ts s = .ok ([], [], s, 0) := by
  intro ts
  induction ts with
  | nil => intro s _; rw [runLoop]
  | cons t ts ih =>
    intro s hall
    rw [runLoop]
    rw [if_pos (hall t (List.mem_cons_self _ _))]
    exact ih s (fun u hu => hall u (List.mem_cons_of_mem _ hu))

theorem runLoop_count_zero (cfg : BridgeConfig) (avail : List (String × String)) (now : Nat) :
    ∀ (ts : List DiscordThread) (s : StateStore) is ms sf,
      runLoop cfg avail now ts s = .ok (is, ms, sf, 0) →
      is = [] ∧ ms = [] ∧ sf = s := by
  intro ts
  induction ts with
  | nil =>
    intro s is ms sf h
    rw [runLoop] at h
    cases h
    exact ⟨rfl, rfl, rfl⟩
  | cons t ts ih =>
    intro s is ms sf h
    rw [runLoop] at h
    split at h
    · exact ih s is ms sf h
    · cases hbody : buildBody cfg t with
      | error e => rw [hbody] at h; exact absurd h (by simp)
      | ok body =>
        rw [hbody] at h
        cases hrec : runLoop cfg avail now ts (markProcessed s t.id t.createdAt now) with
        | error e => rw [hrec] at h; exact absurd h (by simp)
        | ok q =>
          obtain ⟨is2, ms2, sf2, n2⟩ := q
          rw [hrec] at h
          exact absurd h (by simp)

theorem runLoop_count_pos_last (cfg : BridgeConfig) (avail : List (String × String)) (now : Nat) :
    ∀ (ts : List DiscordThread) (s : StateStore) is ms sf n,
      runLoop cfg avail now ts s = .ok (is, ms, sf, n) → n ≠ 0 →
      sf.lastSyncedAt = some now := by
  intro ts
  induction ts with
  | nil =>
    intro s is ms sf n h hn
    rw [runLoop] at h
    cases h
    exact absurd rfl hn
  | cons t ts ih =>
    intro s is ms sf n h hn
    rw [runLoop] at h
    split at h
    · exact ih s is ms sf n h hn
    · cases hbody : buildBody cfg t with
      | error e => rw [hbody] at h; exact absurd h (by simp)
      | ok body =>
        rw [hbody] at h
        cases hrec : runLoop cfg avail now ts (markProcessed s t.id t.createdAt now) with
        | error e => rw [hrec] at h; exact absurd h (by simp)
        | ok q =>
          obtain ⟨is2, ms2, sf2, n2⟩ := q
          rw [hrec] at h
          simp only [Except.ok.injEq, Prod.mk.injEq] at h
          obtain ⟨his, hms, hsf, hn⟩ := h
          subst his; subst hms; subst hsf; subst hn
          by_cases hn2 : n2 = 0
          · subst hn2
            obtain ⟨_, _, hsf⟩ := runLoop_count_zero cfg avail now ts _ is2 ms2 sf2 hrec
            rw [hsf]
            rfl
          · exact ih _ is2 ms2 sf2 n2 hrec hn2

theorem runLoop_trace (cfg : BridgeConfig) (avail : List (String × String)) (now : Nat) :
    ∀ (ts : List DiscordThread) (s : StateStore) is ms sf n,
      runLoop cfg avail now ts s = .ok (is, ms, sf, n) →
      (is.map (fun p => p.1)).Sublist ts ∧
      ms = is.map (fun p => (p.1.id, p.1.createdAt)) ∧
      (∀ p ∈ is, p.2.title = issueTitle cfg p.1 ∧
        p.2.labels = buildLabels cfg avail p.1 ∧ p.2.assignees = cfg.assignees) := by
  intro ts
  induction ts with
  | nil =>
    intro s is ms sf n h
    rw [runLoop] at h
    cases h
    exact ⟨List.Sublist.refl _, rfl, by simp⟩
  | cons t ts ih =>
    intro s is ms sf n h
    rw [runLoop] at h
    split at h
    · obtain ⟨hsub, hms, htitle⟩ := ih s is ms sf n h
      exact ⟨hsub.cons _, hms, htitle⟩
    · cases hbody : buildBody cfg t with
      | error e => rw [hbody] at h; exact absurd h (by simp)
      | ok body =>
        rw [hbody] at h
        cases hrec : runLoop cfg avail now ts (markProcessed s t.id t.createdAt now) with
        | error e => rw [hrec] at h; exact absurd h (by simp)
        | ok q =>
          obtain ⟨is2, ms2, sf2, n2⟩ := q
          rw [hrec] at h
          simp only [Except.ok.injEq, Prod.mk.injEq] at h
          obtain ⟨his, hms, hsf, hn⟩ := h
          subst his; subst hms; subst hsf; subst hn
          obtain ⟨hsub, hms, htitle⟩ := ih _ is2 ms2 sf2 n2 hrec
          refine ⟨?_, ?_, ?_⟩
          · simpa using hsub.cons₂ t
          · simp [hms]
          · intro p hp
            rcases List.mem_cons.mp hp with rfl | hp2
            · exact ⟨rfl, rfl, rfl⟩
            · exact htitle p hp2

/-! ### Claims C2, C3, C8, C9 -/

/-- A minimal configuration whose body template has no placeholders. -/
def runCfg : BridgeConfig :=
  { issueTitlePre := "[D] ", issueBodyTemplate := "", defaultLabels := ["discord"],
    tagLabelMap := [], fallbackLabelPre := "discord/tag/",
    assignees := [], maxThreadsPerRun := 20 }

/-- A fresh ledger. -/
def emptyState : StateStore := { processed := [], lastSyncedAt := none }

/-- The ledger after the single-thread first run at time 3. -/
def oneRunState : StateStore := { processed := [("t1", 1)], lastSyncedAt := some 3 }

/-- The result of running `runCfg` over the single thread `labelThread []`
from an empty ledger at time 3. -/
def oneRunResult : RunResult :=
  { issues := [(labelThread [], ⟨"[D] X", "", ["discord"], []⟩)],
    marks := [("t1", 1)], state := oneRunState, count := 1 }

/-- Claim C2: running the orchestrator twice against an unchanged thread set,
reusing the ledger produced by the first run, creates nothing on the second
run — every thread of the set is already `has_processed` in the final ledger
of the first run, so the second run skips them all and returns count 0 with
no issue submissions and no new ledger entries. -/
theorem run_idempotent (cfg : BridgeConfig) (avail : List (String × String))
    (now1 now2 : Nat) (ts : List DiscordThread) (s0 : StateStore) (r1 : RunResult)
    (h : runOnThreads cfg avail now1 ts s0 = .ok r1) :
    ∃ r2, runOnThreads cfg avail now2 ts r1.state = .ok r2 ∧
      r2.count = 0 ∧ r2.issues = [] ∧ r2.marks = [] := by
  rw [runOnThreads] at h
  cases hloop : runLoop cfg avail now1 ts s0 with
  | error e => rw [hloop] at h; exact absurd h (by simp)
  | ok q =>
    obtain ⟨is1, ms1, sf1, n1⟩ := q
    rw [hloop] at h
    simp only [Except.ok.injEq] at h
    have hstate : r1.state = finishRun n1 sf1 now1 := by rw [← h]
    have hall : ∀ t ∈ ts, hasProcessed r1.state t.id = true := by
      intro t ht
      rw [hstate, hasProcessed_finishRun]
      exact (runLoop_processed cfg avail now1 ts s0 is1 ms1 sf1 n1 hloop).2 t ht
    refine ⟨⟨[], [], finishRun 0 r1.state now2, 0⟩, ?_, rfl, rfl, rfl⟩
    rw [runOnThreads, runLoop_all_skipped cfg avail now2 ts r1.state hall]

/-- Witness for C2: a concrete single-thread run from the empty ledger,
followed by a second run over the same thread reusing its ledger. -/
theorem run_idempotent_witness :
    ∃ r2, runOnThreads runCfg [] 7 [labelThread []] oneRunResult.state = .ok r2 ∧
      r2.count = 0 ∧ r2.issues = [] ∧ r2.marks = [] :=
  run_idempotent runCfg [] 3 7 [labelThread []] emptyState oneRunResult rfl

/-- Two equal-creation-time payloads for the ordering counterexample. -/
def twinMsgA : DiscordMessage :=
  { id := "ma", authorId := "a", authorName := "A", content := "x",
    timestamp := 5, attachments := [] }

/-- Second message, same timestamp. -/
def twinMsgB : DiscordMessage :=
  { id := "mb", authorId := "b", authorName := "B", content := "y",
    timestamp := 5, attachments := [] }

/-- First twin payload (creation time 5). -/
def twinPayloadA : ThreadPayload :=
  { id := "ta", guildId := none, name := some "TA", ownerId := some "o",
    createdAt := 5, appliedTags := [], messages := [twinMsgA] }

/-- Second twin payload (creation time 5 as well). -/
def twinPayloadB : ThreadPayload :=
  { id := "tb", guildId := none, name := some "TB", ownerId := some "o",
    createdAt := 5, appliedTags := [], messages := [twinMsgB] }

/-- Thread emitted for `twinPayloadA`. -/
def twinThreadA : DiscordThread :=
  { id := "ta", guildId := none, channelId := "c", name := "TA", ownerId := "o",
    createdAt := 5, appliedTagIds := [], firstMessage := twinMsgA }

/-- Thread emitted for `twinPayloadB`. -/
def twinThreadB : DiscordThread :=
  { id := "tb", guildId := none, channelId := "c", name := "TB", ownerId := "o",
    createdAt := 5, appliedTagIds := [], firstMessage := twinMsgB }

/-- Claim C3 counterexample: two distinct threads may share a creation
timestamp; both are submitted, so the sequence of creation times of the
`create_issue` calls is `[5, 5]` — not *strictly* ascending. -/
theorem run_order_counterexample :
    (match runOnThreads runCfg [] 3
        (threadsFromOffline "c" none none [twinPayloadA, twinPayloadB]) emptyState with
     | .ok r => r.issues.map (fun p => p.1.createdAt)
     | .error _ => []) = [5, 5] ∧
    ¬ List.Chain' (fun a b => a < b) [5, 5] := by
  have hts : threadsFromOffline "c" none none [twinPayloadA, twinPayloadB] =
      [twinThreadA, twinThreadB] := by
    rw [threadsFromOffline]
    have h1 : offlineLoop "c" none none [twinPayloadA, twinPayloadB] 0 =
        [twinThreadA, twinThreadB] := by decide
    rw [h1, List.mergeSort_of_sorted (by decide)]
  rw [hts]
  exact ⟨by decide, by simp [List.chain'_cons]⟩

/-- Claim C3 (amended): within one run the `create_issue` calls occur in
*non-decreasing* (ascending, possibly with ties) source-thread creation-time
order — the fetched list is sorted by creation time and the loop preserves its
order — and the ledger entries are recorded in exactly the same order: the
marks trace is the submissions trace projected to (thread id, creation time).
Strictness fails only for ties (see the counterexample). -/
theorem run_order_spec :
    (∀ cfg avail now s0 ts r, List.Pairwise (fun a b => a.createdAt ≤ b.createdAt) ts →
      runOnThreads cfg avail now ts s0 = .ok r →
      List.Chain' (fun a b => a.1.createdAt ≤ b.1.createdAt) r.issues ∧
      r.marks = r.issues.map (fun p => (p.1.id, p.1.createdAt))) ∧
    (∀ cfg avail now s0 channelId since limit collected r,
      runOnThreads cfg avail now (fetchThreadsLive channelId since limit collected) s0 = .ok r →
      List.Chain' (fun a b => a.1.createdAt ≤ b.1.createdAt) r.issues ∧
      r.marks = r.issues.map (fun p => (p.1.id, p.1.createdAt))) ∧
    (∀ cfg avail now s0 channelId since limit payloads r,
      runOnThreads cfg avail now (threadsFromOffline channelId since limit payloads) s0 = .ok r →
      List.Chain' (fun a b => a.1.createdAt ≤ b.1.createdAt) r.issues ∧
      r.marks = r.issues.map (fun p => (p.1.id, p.1.createdAt))) := by
  have hmain : ∀ (cfg : BridgeConfig) (avail : List (String × String)) (now : Nat)
      (s0 : StateStore) (ts : List DiscordThread) (r : RunResult),
      List.Pairwise (fun a b => a.createdAt ≤ b.createdAt) ts →
      runOnThreads cfg avail now ts s0 = .ok r →
      List.Chain' (fun a b => a.1.createdAt ≤ b.1.createdAt) r.issues ∧
      r.marks = r.issues.map (fun p => (p.1.id, p.1.createdAt)) := by
    intro cfg avail now s0 ts r hsort h
    rw [runOnThreads] at h
    cases hloop : runLoop cfg avail now ts s0 with
    | error e => rw [hloop] at h; exact absurd h (by simp)
    | ok q =>
      obtain ⟨is1, ms1, sf1, n1⟩ := q
      rw [hloop] at h
      simp only [Except.ok.injEq] at h
      obtain ⟨hsub, hms, _⟩ := runLoop_trace cfg avail now ts s0 is1 ms1 sf1 n1 hloop
      have hpair : List.Pairwise (fun a b => a.createdAt ≤ b.createdAt)
          (is1.map (fun p => p.1)) := hsort.sublist hsub
      rw [List.pairwise_map] at hpair
      constructor
      · rw [← h]
        exact hpair.chain'
      · rw [← h]
        exact hms
  refine ⟨hmain, ?_, ?_⟩
  · intro cfg avail now s0 channelId since limit collected r h
    exact hmain cfg avail now s0 _ r (pairwise_mergeSort_created _) h
  · intro cfg avail now s0 channelId since limit payloads r h
    exact hmain cfg avail now s0 _ r (pairwise_mergeSort_created _) h

/-- Witness for C3 (amended): the ordering statement applied to the concrete
single-thread run. -/
theorem run_order_spec_witness :
    List.Chain' (fun a b => a.1.createdAt ≤ b.1.createdAt) oneRunResult.issues ∧
    oneRunResult.marks = oneRunResult.issues.map (fun p => (p.1.id, p.1.createdAt)) :=
  run_order_spec.1 runCfg [] 3 emptyState [labelThread []] oneRunResult
    (by simp) rfl

/-- Claim C8: after the loop the ledger is persisted in every case; when at
least one thread was newly processed the persisted `last_synced_at` is the run
time (set by the last `mark_processed`); when nothing was processed and the
ledger had been synced before, the state is persisted with `last_synced_at`
advanced to the run time as a heartbeat; when nothing was processed and the
ledger had never been synced, it is persisted unchanged.  An all-skip run on a
previously-synced ledger therefore differs from a never-run ledger in its
`last_synced_at`. -/
theorem run_persist_spec (cfg : BridgeConfig) (avail : List (String × String))
    (now : Nat) (ts : List DiscordThread) (s0 : StateStore) (r : RunResult)
    (h : runOnThreads cfg avail now ts s0 = .ok r) :
    (r.count = 0 → s0.lastSyncedAt = none → r.state = s0) ∧
    (r.count = 0 → s0.lastSyncedAt ≠ none → r.state = { s0 with lastSyncedAt := some now }) ∧
    (r.count ≠ 0 → r.state.lastSyncedAt = some now) := by
  rw [runOnThreads] at h
  cases hloop : runLoop cfg avail now ts s0 with
  | error e => rw [hloop] at h; exact absurd h (by simp)
  | ok q =>
    obtain ⟨is1, ms1, sf1, n1⟩ := q
    rw [hloop] at h
    simp only [Except.ok.injEq] at h
    have hcount : r.count = n1 := by rw [← h]
    have hstate : r.state = finishRun n1 sf1 now := by rw [← h]
    refine ⟨?_, ?_, ?_⟩
    · intro hz hnone
      rw [hcount] at hz
      subst hz
      obtain ⟨_, _, hsf⟩ := runLoop_count_zero cfg avail now ts s0 is1 ms1 sf1 hloop
      subst hsf
      rw [hstate, finishRun, if_pos (Or.inr hnone)]
    · intro hz hsome
      rw [hcount] at hz
      subst hz
      obtain ⟨_, _, hsf⟩ := runLoop_count_zero cfg avail now ts s0 is1 ms1 sf1 hloop
      subst hsf
      have hcond : ¬((0 : Nat) ≠ 0 ∨ sf1.lastSyncedAt = none) := by
        rintro (hc | hc)
        · exact hc rfl
        · exact hsome hc
      rw [hstate, finishRun, if_neg hcond]
    · intro hnz
      rw [hcount] at hnz
      have hlast := runLoop_count_pos_last cfg avail now ts s0 is1 ms1 sf1 n1 hloop hnz
      rw [hstate, finishRun, if_pos (Or.inl hnz)]
      exact hlast

/-- Witness for C8: the persistence statement applied to the concrete
single-thread run, whose count is 1, yielding the run-time stamp. -/
theorem run_persist_spec_witness : oneRunResult.state.lastSyncedAt = some 3 :=
  (run_persist_spec runCfg [] 3 [labelThread []] emptyState oneRunResult rfl).2.2
    (by decide)

/-- A thread whose display name carries surrounding whitespace. -/
def wsThread : DiscordThread :=
  { id := "tw", guildId := none, channelId := "c", name := " Crash ", ownerId := "o",
    createdAt := 1, appliedTagIds := [], firstMessage := labelMsg }

/-- A configuration whose title prefix ends in a space. -/
def wsCfg : BridgeConfig :=
  { issueTitlePre := "Bug: ", issueBodyTemplate := "", defaultLabels := [],
    tagLabelMap := [], fallbackLabelPre := "discord/tag/", assignees := [],
    maxThreadsPerRun := 20 }

/-- Claim C9 counterexample: the code computes
`f"{prefix}{thread.name}".strip()` — the *concatenation* is stripped.  With
prefix `"Bug: "` and name `" Crash "` the submitted title is `"Bug:  Crash"`
(the name's leading space survives as an interior double space), which differs
from prefix-plus-trimmed-name `"Bug: Crash"`. -/
theorem run_title_counterexample :
    (match runOnThreads wsCfg [] 3 [wsThread] emptyState with
     | .ok r => r.issues.map (fun p => p.2.title)
     | .error _ => []) = ["Bug:  Crash"] ∧
    wsCfg.issueTitlePre ++ pyStrip wsThread.name = "Bug: Crash" ∧
    ("Bug:  Crash" : String) ≠ "Bug: Crash" := by
  refine ⟨by decide, by decide, by decide⟩

/-- Claim C9 (amended): for every thread submitted by `IssueSyncer.run`, the
issue title equals the whitespace-trimmed *concatenation* of the configured
title prefix and the thread's display name (`f"{prefix}{name}".strip()`): the
prefix is not preserved verbatim when the combined string has leading
whitespace, and interior whitespace at the junction survives. -/
theorem run_title_spec (cfg : BridgeConfig) (avail : List (String × String))
    (now : Nat) (ts : List DiscordThread) (s0 : StateStore) (r : RunResult)
    (h : runOnThreads cfg avail now ts s0 = .ok r) :
    ∀ p ∈ r.issues, p.2.title = pyStrip (cfg.issueTitlePre ++ p.1.name) := by
  rw [runOnThreads] at h
  cases hloop : runLoop cfg avail now ts s0 with
  | error e => rw [hloop] at h; exact absurd h (by simp)
  | ok q =>
    obtain ⟨is1, ms1, sf1, n1⟩ := q
    rw [hloop] at h
    simp only [Except.ok.injEq] at h
    obtain ⟨_, _, htitle⟩ := runLoop_trace cfg avail now ts s0 is1 ms1 sf1 n1 hloop
    intro p hp
    rw [← h] at hp
    exact (htitle p hp).1

/-- Witness for C9 (amended): the statement applied to the concrete
single-thread run. -/
theorem run_title_spec_witness :
    ((labelThread [], (⟨"[D] X", "", ["discord"], []⟩ : IssueRequest)).2).title =
      pyStrip (runCfg.issueTitlePre ++ ((labelThread [], (⟨"[D] X", "", ["discord"], []⟩ : IssueRequest)).1).name) :=
  run_title_spec runCfg [] 3 [labelThread []] emptyState oneRunResult rfl
    (labelThread [], ⟨"[D] X", "", ["discord"], []⟩) (by decide)

/-! ### `DiscordClient._execute` (claim C4)

The network is a script assigning to every attempt number the outcome of that
HTTP request.  Attempt numbers run 1..max_retries exactly as the Python
`for attempt in range(1, self._max_retries + 1)`; the fuel argument counts
the remaining loop iterations (`fuel = max_retries + 1 - attempt`), and
running out of iterations is the trailing `raise RuntimeError`, modelled as
`.exhausted`.  Sleeps are returned as a trace. -/

/-- Outcome of one HTTP request of the script. -/
inductive ApiOutcome where
  | success : ApiOutcome
  | httpError (code : Nat) (retryAfter : Nat) : ApiOutcome
  | urlError : ApiOutcome
deriving DecidableEq

/-- How `_execute` terminates. -/
inductive ExecResult where
  | ok : ExecResult
  | raisedHttp (code : Nat) : ExecResult
  | raisedUrl : ExecResult
  | exhausted : ExecResult
deriving DecidableEq

/-- One sleep performed by the loop. -/
inductive SleepEvent where
  | retryAfter (seconds : Nat) : SleepEvent
  | backoff (seconds : Nat) : SleepEvent
deriving DecidableEq

/-- `_sleep_with_backoff`: `min(2 ** attempt, 30)`. -/
def backoffDelay (attempt : Nat) : Nat := min (2 ^ attempt) 30

/-- Prepend a sleep event to a loop result. -/
def consSleep (e : SleepEvent) (r : ExecResult × List SleepEvent) :
    ExecResult × List SleepEvent := (r.1, e :: r.2)

/-- The retry loop of `_execute`: on 429 sleep the server-specified interval
and go to the next iteration (the `continue` advances the loop counter); on
5xx with attempts remaining, back off and go to the next iteration; on any
other HTTP error re-raise; on a network error, re-raise when no attempts
remain, else back off and continue. -/
def executeSteps (script : Nat → ApiOutcome) (maxRetries : Nat) :
    Nat → Nat → ExecResult × List SleepEvent
  | _, 0 => (.exhausted, [])
  | attempt, fuel + 1 =>
    match script attempt with
    | .success => (.ok, [])
    | .httpError code ra =>
      if code = 429 then
        consSleep (.retryAfter ra) (executeSteps script maxRetries (attempt + 1) fuel)
      else if 500 ≤ code ∧ code < 600 ∧ attempt < maxRetries then
        consSleep (.backoff (backoffDelay attempt))
          (executeSteps script maxRetries (attempt + 1) fuel)
      else (.raisedHttp code, [])
    | .urlError =>
      if maxRetries ≤ attempt then (.raisedUrl, [])
      else
        consSleep (.backoff (backoffDelay attempt))
          (executeSteps script maxRetries (attempt + 1) fuel)

/-- `DiscordClient._execute` over a script of outcomes. -/
def execute (maxRetries : Nat) (script : Nat → ApiOutcome) :
    ExecResult × List SleepEvent :=
  executeSteps script maxRetries 1 maxRetries

/-- Claim C4 counterexample: with `max_retries = 2`, two consecutive 429
responses sleep the server-specified interval each — but the `continue`
advances the `for` counter, so the ceiling is exhausted and the call fails
with `RuntimeError` instead of retrying indefinitely: a 429 retry *does*
count against the retry-attempt ceiling. -/
theorem execute_429_counterexample :
    execute 2 (fun _ => .httpError 429 1) =
      (.exhausted, [.retryAfter 1, .retryAfter 1]) := by decide

theorem executeSteps_all429 (ra : Nat → Nat) (mr : Nat) :
    ∀ (fuel attempt : Nat),
      executeSteps (fun i => .httpError 429 (ra i)) mr attempt fuel =
        (.exhausted, (List.range fuel).map (fun i => .retryAfter (ra (attempt + i)))) := by
  intro fuel
  induction fuel with
  | zero => intro attempt; rw [executeSteps]; simp
  | succ f ih =>
    intro attempt
    rw [executeSteps]
    dsimp only
    rw [if_pos rfl, ih (attempt + 1), consSleep]
    dsimp only
    congr 1
    rw [List.range_succ_eq_map, List.map_cons, List.map_map]
    congr 1
    apply List.map_congr_left
    intro i _
    simp only [Function.comp_apply]
    congr 2
    omega

theorem executeSteps_5xx (code ra mr : Nat) (h5 : 500 ≤ code) (h6 : code < 600) :
    ∀ (fuel attempt : Nat), attempt + fuel = mr + 1 → 1 ≤ fuel →
      executeSteps (fun _ => .httpError code ra) mr attempt fuel =
        (.raisedHttp code,
          (List.range (fuel - 1)).map (fun i => .backoff (backoffDelay (attempt + i)))) := by
  intro fuel
  induction fuel with
  | zero => intro attempt _ h1; omega
  | succ f ih =>
    intro attempt hsum _
    rw [executeSteps]
    dsimp only
    rw [if_neg (by omega)]
    by_cases hf : f = 0
    · subst hf
      rw [if_neg (by omega)]
      simp
    · rw [if_pos ⟨h5, h6, by omega⟩, ih (attempt + 1) (by omega) (by omega), consSleep]
      dsimp only
      congr 1
      obtain ⟨f2, rfl⟩ : ∃ f2, f = f2 + 1 := ⟨f - 1, by omega⟩
      simp only [Nat.add_sub_cancel]
      rw [List.range_succ_eq_map, List.map_cons, List.map_map]
      congr 1
      apply List.map_congr_left
      intro i _
      simp only [Function.comp_apply]
      congr 2
      omega

theorem executeSteps_url (mr : Nat) :
    ∀ (fuel attempt : Nat), attempt + fuel = mr + 1 → 1 ≤ fuel →
      executeSteps (fun _ => .urlError) mr attempt fuel =
        (.raisedUrl,
          (List.range (fuel - 1)).map (fun i => .backoff (backoffDelay (attempt + i)))) := by
  intro fuel
  induction fuel with
  | zero => intro attempt _ h1; omega
  | succ f ih =>
    intro attempt hsum _
    rw [executeSteps]
    dsimp only
    by_cases hf : f = 0
    · subst hf
      rw [if_pos (by omega)]
      simp
    · rw [if_neg (by omega), ih (attempt + 1) (by omega) (by omega), consSleep]
      dsimp only
      congr 1
      obtain ⟨f2, rfl⟩ : ∃ f2, f = f2 + 1 := ⟨f - 1, by omega⟩
      simp only [Nat.add_sub_cancel]
      rw [List.range_succ_eq_map, List.map_cons, List.map_map]
      congr 1
      apply List.map_congr_left
      intro i _
      simp only [Function.comp_apply]
      congr 2
      omega

/-- Claim C4 (amended): in `_execute` every HTTP 429 response sleeps for the
server-specified Retry-After interval and retries, but — the `continue`
advancing the `for` counter — each such retry *consumes an attempt* toward the
`max_retries` ceiling exactly like 5xx and network-level retries, so an
unbroken run of 429s exhausts the ceiling and fails (`RuntimeError`); a 5xx
response backs off exponentially (`min(2**attempt, 30)`) while attempts
remain and re-raises on the last attempt; a network-level error does the
same; any other HTTP status propagates immediately without sleeping; a
successful response returns immediately. -/
theorem execute_retry_spec :
    (∀ mr (ra : Nat → Nat), execute mr (fun i => .httpError 429 (ra i)) =
      (.exhausted, (List.range mr).map (fun i => .retryAfter (ra (1 + i))))) ∧
    (∀ mr code ra, code ≠ 429 → ¬(500 ≤ code ∧ code < 600) → 1 ≤ mr →
      execute mr (fun _ => .httpError code ra) = (.raisedHttp code, [])) ∧
    (∀ mr code ra, 500 ≤ code → code < 600 → 1 ≤ mr →
      execute mr (fun _ => .httpError code ra) =
        (.raisedHttp code,
          (List.range (mr - 1)).map (fun i => .backoff (backoffDelay (1 + i))))) ∧
    (∀ mr, 1 ≤ mr → execute mr (fun _ => .urlError) =
      (.raisedUrl, (List.range (mr - 1)).map (fun i => .backoff (backoffDelay (1 + i))))) ∧
    (∀ mr, 1 ≤ mr → execute mr (fun _ => .success) = (.ok, [])) := by
  refine ⟨?_, ?_, ?_, ?_, ?_⟩
  · intro mr ra
    rw [execute, executeSteps_all429 ra mr mr 1]
  · intro mr code ra h429 h5 hmr
    rw [execute]
    obtain ⟨m, rfl⟩ : ∃ m, mr = m + 1 := ⟨mr - 1, by omega⟩
    rw [executeSteps]
    dsimp only
    rw [if_neg h429, if_neg (fun hc => h5 ⟨hc.1, hc.2.1⟩)]
  · intro mr code ra h5 h6 hmr
    rw [execute, executeSteps_5xx code ra mr h5 h6 mr 1 (by omega) hmr]
  · intro mr hmr
    rw [execute, executeSteps_url mr mr 1 (by omega) hmr]
  · intro mr hmr
    rw [execute]
    obtain ⟨m, rfl⟩ : ∃ m, mr = m + 1 := ⟨mr - 1, by omega⟩
    rw [executeSteps]

/-- Witness for C4 (amended): each branch of the retry characterization
applied at concrete ceilings, codes and delays. -/
theorem execute_retry_spec_witness :
    execute 2 (fun i => .httpError 429 (i + 3)) =
      (.exhausted, [.retryAfter 4, .retryAfter 5]) ∧
    execute 3 (fun _ => .httpError 404 1) = (.raisedHttp 404, []) ∧
    execute 3 (fun _ => .httpError 503 1) =
      (.raisedHttp 503, [.backoff 2, .backoff 4]) ∧
    execute 3 (fun _ => .urlError) = (.raisedUrl, [.backoff 2, .backoff 4]) ∧
    execute 3 (fun _ => .success) = (.ok, []) :=
  ⟨(execute_retry_spec.1 2 (fun i => i + 3)).trans (by decide),
   execute_retry_spec.2.1 3 404 1 (by decide) (by decide) (by decide),
   (execute_retry_spec.2.2.1 3 503 1 (by decide) (by decide) (by decide)).trans (by decide),
   (execute_retry_spec.2.2.2.1 3 (by decide)).trans (by decide),
   execute_retry_spec.2.2.2.2 3 (by decide)⟩
